import Mathlib

/-!
Verification development for the road-defect-indexing-maps dashboard.

The definitions below are a shallow embedding of the repository's core:
the Detection Fetch Service (`src/lib/cloud-storage.ts`), the defects API
route (`src/app/api/defects/route.ts`), the client-side Synchronization &
Reconciliation Engine (`fetchDefects` in `src/components/map.tsx`), and
the severity-classification helpers (`src/components/map.tsx` and the
recent-defects list component).

Modelling conventions: JSON documents become an inductive `Json` type with
rationals for numbers; JavaScript `Map` objects become insertion-ordered
association lists; asynchronous, fallible operations become total
functions over an explicit `Backend` record that abstracts the remote
object store (listing, content download, signing, existence checks);
numbers that the code treats as float severities become rationals, with
`Math.round` modelled as floor of `x + 1/2` (JavaScript rounds half up).
-/

namespace RoadDefects

/-- JSON values as parsed by `JSON.parse` in the service. -/
inductive Json where
  | null
  | bool (b : Bool)
  | num (q : ℚ)
  | str (s : String)
  | arr (elts : List Json)
  | obj (fields : List (String × Json))

/-- JavaScript truthiness of a parsed JSON value (objects and arrays are
always truthy; `null`, `false`, `0` and `""` are falsy). -/
def truthy : Json → Bool
  | .null => false
  | .bool b => b
  | .num q => q != 0
  | .str s => s != ""
  | .arr _ => true
  | .obj _ => true

/-- Property access `value[key]` on a parsed JSON value: `none` models the
JavaScript `undefined` obtained when the value is not an object or the key
is absent. -/
def jsonLookup : Json → String → Option Json
  | .obj fields, key => (fields.find? (fun p => p.1 == key)).map (·.2)
  | _, _ => none

/-- `Array.isArray` on a parsed JSON value. -/
def jsonIsArray : Json → Bool
  | .arr _ => true
  | _ => false

/-- The `.length` property of a parsed JSON array (`0` elsewhere; only
consulted behind an `Array.isArray` guard, as in the source). -/
def jsonArrayLength : Json → Nat
  | .arr elts => elts.length
  | _ => 0

/-- A normalized Detection record as produced by `getAllDetections`
(`src/lib/cloud-storage.ts`): `location` is the raw `GPSLocation` value
copied out of the metadata. -/
structure Detection where
  id : String
  name : String
  imageUrl : String
  metadata : Json
  location : Json

/-- The environment-derived settings read in the `CloudStorage`
constructor; a missing environment variable becomes `""` via `|| ""`. -/
structure Settings where
  projectId : String
  bucketName : String
  region : String
  folderPath : String

/-- Abstraction of the remote object store and signing backend:
`files` is the bucket listing (names, in backend order), `content name`
is the downloaded-and-parsed JSON for an existing, well-formed object and
`none` on absence or parse failure, `sign` produces the signed URL for an
existing object, `fileExists` is the per-object existence probe, and
`bucketExists` is the bucket-existence probe used by `testConnection`. -/
structure Backend where
  bucketExists : Bool
  files : List String
  content : String → Option Json
  sign : String → String
  fileExists : String → Bool

/-- Whether `initialize` got past its required-settings check and created
the client and bucket handles (`cloud-storage.ts:40-48`): with a missing
project id or bucket name it returns early and `client`/`bucket` stay
`null`. -/
def clientInitialized (settings : Settings) : Bool :=
  !(settings.projectId == "" || settings.bucketName == "")

/-- `isReady` (`cloud-storage.ts:109-122`): false when `client` or
`bucket` is `null`, otherwise re-runs `testConnection`, which sets
`isInitialized` to the result of the bucket-existence probe. -/
def isReady (settings : Settings) (b : Backend) : Bool :=
  clientInitialized settings && b.bucketExists

/-- `folderPath.replace(/\/$/, "")`: strip one trailing slash. -/
def dropTrailingSlash (path : String) : String :=
  if path.endsWith "/" then path.dropRight 1 else path

/-- `name.replace(/suffix$/, "")`: strip a suffix when present. -/
def dropSuffix (name suffix : String) : String :=
  if name.endsWith suffix then name.dropRight suffix.length else name

/-- `listMetadataFiles` (`cloud-storage.ts:127-153`): requires readiness,
lists at most 300 objects under the folder prefix, keeps the `.json`
names, sorts ascending and reverses (most recent name first). -/
def listMetadataFiles (settings : Settings) (b : Backend) : List String :=
  if isReady settings b then
    let folderPath := dropTrailingSlash settings.folderPath
    let files := (b.files.filter (fun n => n.startsWith folderPath)).take 300
    let metadataFiles := files.filter (fun n => n.endsWith ".json")
    (metadataFiles.insertionSort (fun a b => a ≤ b)).reverse
  else []

/-- `getSignedUrl` (`cloud-storage.ts:158-198`): empty string when the
service is not ready or the blob does not exist, otherwise the signed
URL. -/
def getSignedUrl (settings : Settings) (b : Backend) (blobName : String) : String :=
  if isReady settings b then
    if b.fileExists blobName then b.sign blobName else ""
  else ""

/-- The validation applied by `getMetadata` (`cloud-storage.ts:224`):
reject when `GPSLocation` is missing/falsy, not an array, or not of
length 2. -/
def gpsValid (metadata : Json) : Bool :=
  match jsonLookup metadata "GPSLocation" with
  | none => false
  | some gps => truthy gps && jsonIsArray gps && jsonArrayLength gps == 2

/-- `getMetadata` (`cloud-storage.ts:203-234`): `null` when the service is
not ready, the JSON blob is absent or unparsable, or the `GPSLocation`
validation fails; otherwise the parsed metadata object. -/
def getMetadata (settings : Settings) (b : Backend) (jsonBlobName : String) : Option Json :=
  if isReady settings b then
    match b.content jsonBlobName with
    | none => none
    | some metadata => if gpsValid metadata then some metadata else none
  else none

/-- Processing of one candidate JSON blob inside `getAllDetections`
(`cloud-storage.ts:258-288`): fetch metadata, re-check `GPSLocation`
truthiness, derive the paired image key and the id from the basename
(handling the `_metadata` suffix), and assemble the Detection. -/
def processDetection (settings : Settings) (b : Backend) (jsonBlobName : String) :
    Option Detection :=
  match getMetadata settings b jsonBlobName with
  | none => none
  | some metadata =>
    if truthy ((jsonLookup metadata "GPSLocation").getD Json.null) then
      let baseName := dropSuffix jsonBlobName ".json"
      let imageBlobName :=
        if baseName.endsWith "_metadata" then dropSuffix baseName "_metadata" ++ ".jpg"
        else baseName ++ ".jpg"
      let id :=
        if baseName.endsWith "_metadata" then dropSuffix baseName "_metadata"
        else baseName
      some { id := id, name := jsonBlobName,
             imageUrl := getSignedUrl settings b imageBlobName,
             metadata := metadata,
             location := (jsonLookup metadata "GPSLocation").getD Json.null }
    else none

/-- The batched processing loop of `getAllDetections`
(`cloud-storage.ts:253-293`): slices of `batchSize = 20` are processed
(`Promise.all` preserves order) and the non-null results are appended in
order. -/
def processBatches (f : String → Option Detection) : List String → List Detection
  | [] => []
  | a :: rest =>
    ((a :: rest).take 20).filterMap f ++ processBatches f ((a :: rest).drop 20)
  termination_by l => l.length
  decreasing_by
    simp [List.length_drop]
    omega

/-- `getAllDetections` (`cloud-storage.ts:240-301`): empty when not ready,
otherwise the batched processing of the first `limit` listed metadata
blobs. -/
def getAllDetections (settings : Settings) (b : Backend) (limit : Nat) : List Detection :=
  if isReady settings b then
    processBatches (processDetection settings b) ((listMetadataFiles settings b).take limit)
  else []

/-- The `detection.metadata.ProcessingTimestamp` access performed by the
defects route before date parsing. -/
def detectionTimestamp (d : Detection) : Json :=
  (jsonLookup d.metadata "ProcessingTimestamp").getD Json.null

/-- The clamping of the caller-supplied limit in the defects route
(`src/app/api/defects/route.ts:8-10`): default 5000, hard ceiling
10000. -/
def routeEffectiveLimit (requestedLimit : Nat) : Nat :=
  min requestedLimit 10000

/-- The number of backing metadata objects read by
`getAllDetections settings b limit`: one `getMetadata` download per entry
of `limitedBlobNames = jsonBlobNames.slice(0, limit)`
(`cloud-storage.ts:248-249`). -/
def backingReads (settings : Settings) (b : Backend) (limit : Nat) : Nat :=
  ((listMetadataFiles settings b).take limit).length

/-- Backing reads performed when a caller requests `requestedLimit` from
the defects route (`route.ts:8-13`). -/
def routeBackingReads (settings : Settings) (b : Backend) (requestedLimit : Nat) : Nat :=
  backingReads settings b (routeEffectiveLimit requestedLimit)

/-- `GET /api/defects` (`src/app/api/defects/route.ts`): clamp the limit,
fetch, then — only when `since` is present — keep detections whose parsed
`ProcessingTimestamp` is strictly greater than the parsed `since`.
`dateMillis` abstracts `new Date(x).getTime()`. -/
def routeGET (settings : Settings) (b : Backend) (dateMillis : Json → Int)
    (limitParam : Option Nat) (since : Option String) : List Detection :=
  let requestedLimit := limitParam.getD 5000
  let limit := min requestedLimit 10000
  let detections := getAllDetections settings b limit
  match since with
  | some sinceStr =>
    detections.filter (fun d => dateMillis (detectionTimestamp d) > dateMillis (Json.str sinceStr))
  | none => detections

/-! ### The client-side Synchronization & Reconciliation Engine
(`fetchDefects` in `src/components/map.tsx:45-95`). -/

/-- Insertion-ordered association list modelling the JavaScript `Map`
built in the incremental merge (`map.tsx:67`). -/
abbrev DetectionMap := List (String × Detection)

/-- JavaScript `Map.prototype.set`: replace the value of an existing key
in place (keeping its insertion position), otherwise append. -/
def mapSet : DetectionMap → String → Detection → DetectionMap
  | [], key, v => [(key, v)]
  | p :: rest, key, v =>
    if p.1 = key then (key, v) :: rest else p :: mapSet rest key v

/-- Successive `Map.prototype.set` calls for each detection of a list, as
performed by the `Map` constructor over `prev` and by the
`data.detections.forEach` loop (`map.tsx:67-70`). -/
def mapSetAll (m : DetectionMap) (l : List Detection) : DetectionMap :=
  l.foldl (fun acc d => mapSet acc d.id d) m

/-- The incremental merge of `fetchDefects` (`map.tsx:66-79`): build a map
of the held detections keyed by id, upsert every fetched detection, then
keep only the values whose id appears in the latest response
(prune-on-reconcile). -/
def mergeDefects (prev fetched : List Detection) : List Detection :=
  let existingDefectsMap := mapSetAll (mapSetAll [] prev) fetched
  let currentIds := fetched.map (·.id)
  (existingDefectsMap.map (·.2)).filter (fun d => currentIds.contains d.id)

/-- The state held by the engine: the merged detections, the
`lastUpdated` stamp (epoch milliseconds) and the `defectsLoaded` flag. -/
structure EngineState where
  defects : List Detection
  lastUpdated : Option Int
  defectsLoaded : Bool

/-- Outcome of one `fetch('/api/defects...')` call as observed by
`fetchDefects`: a network error (the `fetch` promise rejects), a non-OK
response (`map.tsx:51-54` throws, reaching the same catch), or an OK
response whose body may or may not carry a `detections` field. -/
inductive FetchOutcome where
  | networkError
  | httpError
  | success (detections : Option (List Detection))

/-- One run of `fetchDefects` (`map.tsx:45-95`) as a state transition.
The catch block (`map.tsx:90-94`) only logs and sets `defectsLoaded`, so
both failure outcomes leave `defects` and `lastUpdated` untouched and the
function is total — no exception escapes to the engine's consumers. -/
def fetchDefectsStep (st : EngineState) (now : Int) : FetchOutcome → EngineState
  | .networkError => { st with defectsLoaded := true }
  | .httpError => { st with defectsLoaded := true }
  | .success none => st
  | .success (some detections) =>
    { defects :=
        match st.lastUpdated with
        | some _ => mergeDefects st.defects detections
        | none => detections,
      lastUpdated := some now,
      defectsLoaded := true }

/-! ### Severity classification
Two incompatible threshold schemes coexist in the source: the map popup
and the map layer paint rule (`src/components/map.tsx`), and the
recent-defects list component. Severities are modelled as rationals. -/

/-- `Math.round` on a rational: JavaScript rounds half toward positive
infinity. -/
def jsRound (x : ℚ) : ℤ := ⌊x + 1 / 2⌋

namespace MapComponent

/-- `formatSeverityLevel` in the map popup (`map.tsx:504-509`, also
`123-128`): round to 2 decimals, then bucket at 0.5 and 0.3. -/
def formatSeverityLevel (severity : ℚ) : String :=
  let roundedSeverity : ℚ := (jsRound (severity * 100) : ℚ) / 100
  if roundedSeverity ≥ 0.5 then "Severe"
  else if roundedSeverity ≥ 0.3 then "Moderate"
  else "Low"

/-- `getSeverityColorClass` in the map popup (`map.tsx:511-516`): same
rounding and thresholds as the popup label, mapped to color classes. -/
def getSeverityColorClass (severity : ℚ) : String :=
  let roundedSeverity : ℚ := (jsRound (severity * 100) : ℚ) / 100
  if roundedSeverity ≥ 0.5 then "text-red-500"
  else if roundedSeverity ≥ 0.3 then "text-yellow-500"
  else "text-green-500"

/-- The `circle-color` paint expression of the `unclustered-point` layer
(`map.tsx:328-333`): a `case` on the raw severity with thresholds 0.5 and
0.3, no rounding. -/
def unclusteredPointColor (severity : ℚ) : String :=
  if severity ≥ 0.5 then "#ef4444"
  else if severity ≥ 0.3 then "#eab308"
  else "#22c55e"

end MapComponent

namespace RecentDefects

/-- `formatSeverityLevel` in the recent-defects list component: thresholds
0.7 and 0.3 on the raw severity, no rounding. -/
def formatSeverityLevel (severity : ℚ) : String :=
  if severity ≥ 0.7 then "Severe"
  else if severity ≥ 0.3 then "Moderate"
  else "Low"

/-- `getSeverityColorClass` in the recent-defects list component:
thresholds 0.7 and 0.3 on the raw severity, no rounding. -/
def getSeverityColorClass (severity : ℚ) : String :=
  if severity ≥ 0.7 then "text-red-500"
  else if severity ≥ 0.3 then "text-yellow-500"
  else "text-green-500"

end RecentDefects

/-- Correspondence between the popup's severity labels and its color
classes, used to state that the two popup helpers realize the same
bucketing. -/
def severityLabelToColorClass (label : String) : String :=
  if label = "Severe" then "text-red-500"
  else if label = "Moderate" then "text-yellow-500"
  else "text-green-500"

/-! ### Concrete sample data used by witnesses and counterexamples. -/

/-- A held detection with id `a`. -/
def dHeld : Detection :=
  { id := "a", name := "held", imageUrl := "", metadata := Json.null, location := Json.null }

/-- A fetched detection with id `a` (same id as `dHeld`, different payload). -/
def dFetchA : Detection :=
  { id := "a", name := "fetched-a", imageUrl := "", metadata := Json.null,
    location := Json.null }

/-- A fetched detection with id `b`. -/
def dFetchB : Detection :=
  { id := "b", name := "fetched-b", imageUrl := "", metadata := Json.null,
    location := Json.null }

/-- A second fetched detection that duplicates id `a` with another payload. -/
def dDupA : Detection :=
  { id := "a", name := "dup-a", imageUrl := "", metadata := Json.null,
    location := Json.null }

/-- Concrete settings with every required value present. -/
def sampleSettings : Settings :=
  { projectId := "proj", bucketName := "bkt", region := "asia", folderPath := "f" }

/-- Concrete settings with the project id missing (empty, as `|| ""` yields). -/
def emptySettings : Settings :=
  { projectId := "", bucketName := "bkt", region := "asia", folderPath := "f" }

/-- A metadata document whose `GPSLocation` is present but not an array. -/
def badJson : Json := Json.obj [("GPSLocation", Json.null)]

/-- A concrete backend holding one malformed metadata object. -/
def sampleBackend : Backend :=
  { bucketExists := true,
    files := ["f/two_metadata.json"],
    content := fun n => if n = "f/two_metadata.json" then some badJson else none,
    sign := fun _ => "signed",
    fileExists := fun _ => true }

/-- Lookup by key in the insertion-ordered map (JavaScript `Map.get`). -/
def mlookup (m : DetectionMap) (key : String) : Option Detection :=
  (m.find? (fun p => p.1 == key)).map (·.2)

/-- Well-formedness of the merge map: keys are pairwise distinct and every
stored detection is keyed by its own id. -/
def GoodMap (m : DetectionMap) : Prop :=
  (m.map Prod.fst).Nodup ∧ ∀ p ∈ m, p.2.id = p.1

theorem goodMap_nil : GoodMap [] := by
  constructor
  · exact List.nodup_nil
  · intro p hp
    cases hp

theorem goodMap_tail {q : String × Detection} {rest : DetectionMap}
    (h : GoodMap (q :: rest)) : GoodMap rest := by
  refine ⟨(List.nodup_cons.mp h.1).2, ?_⟩
  intro p hp
  exact h.2 p (List.mem_cons_of_mem q hp)

theorem mapSet_keys (m : DetectionMap) (key : String) (v : Detection) :
    (mapSet m key v).map Prod.fst =
      if key ∈ m.map Prod.fst then m.map Prod.fst else m.map Prod.fst ++ [key] := by
  induction m with
  | nil => simp [mapSet]
  | cons p rest ih =>
    by_cases hp : p.1 = key
    · simp [mapSet, hp]
    · simp only [mapSet, if_neg hp, List.map_cons, List.mem_cons, ih]
      by_cases hk : key ∈ rest.map Prod.fst
      · simp [hk]
      · have hne : ¬(key = p.1) := fun he => hp he.symm
        simp [hk, hne]

theorem mem_mapSet {m : DetectionMap} {key : String} {v : Detection}
    {p : String × Detection} (hp : p ∈ mapSet m key v) :
    p = (key, v) ∨ p ∈ m := by
  induction m with
  | nil =>
    simp [mapSet] at hp
    exact Or.inl hp
  | cons q rest ih =>
    by_cases hq : q.1 = key
    · simp only [mapSet, if_pos hq, List.mem_cons] at hp
      rcases hp with h | h
      · exact Or.inl h
      · exact Or.inr (List.mem_cons_of_mem q h)
    · simp only [mapSet, if_neg hq, List.mem_cons] at hp
      rcases hp with h | h
      · exact Or.inr (h ▸ List.mem_cons_self q rest)
      · rcases ih h with h' | h'
        · exact Or.inl h'
        · exact Or.inr (List.mem_cons_of_mem q h')

theorem goodMap_mapSet {m : DetectionMap} {key : String} {v : Detection}
    (h : GoodMap m) (hv : v.id = key) : GoodMap (mapSet m key v) := by
  constructor
  · rw [mapSet_keys]
    by_cases hk : key ∈ m.map Prod.fst
    · simpa [hk] using h.1
    · simp [hk, List.nodup_append, h.1]
  · intro p hp
    rcases mem_mapSet hp with h' | h'
    · rw [h']
      exact hv
    · exact h.2 p h'

theorem mlookup_mapSet_self (m : DetectionMap) (key : String) (v : Detection) :
    mlookup (mapSet m key v) key = some v := by
  induction m with
  | nil => simp [mapSet, mlookup, List.find?]
  | cons p rest ih =>
    by_cases hp : p.1 = key
    · simp [mapSet, hp, mlookup, List.find?]
    · have hbeq : (p.1 == key) = false := by
        simpa using hp
      simp only [mapSet, if_neg hp, mlookup, List.find?, hbeq]
      exact ih

theorem mlookup_mapSet_ne (m : DetectionMap) (key key' : String) (v : Detection)
    (h : key' ≠ key) : mlookup (mapSet m key v) key' = mlookup m key' := by
  induction m with
  | nil =>
    have : (key == key') = false := by
      simpa using fun he => h he.symm
    simp [mapSet, mlookup, List.find?, this]
  | cons p rest ih =>
    by_cases hp : p.1 = key
    · have h1 : (key == key') = false := by
        simpa using fun he => h he.symm
      have h2 : (p.1 == key') = false := by
        simpa using fun he => h (hp ▸ he).symm
      simp [mapSet, hp, mlookup, List.find?, h1, h2]
    · by_cases hp' : p.1 = key'
      · have h2 : (p.1 == key') = true := by
          simpa using hp'
        simp [mapSet, if_neg hp, mlookup, List.find?, h2]
      · have h2 : (p.1 == key') = false := by
          simpa using hp'
        simp only [mapSet, if_neg hp, mlookup, List.find?, h2]
        exact ih

theorem goodMap_mapSetAll {m : DetectionMap} (l : List Detection)
    (h : GoodMap m) : GoodMap (mapSetAll m l) := by
  induction l generalizing m with
  | nil => exact h
  | cons d rest ih =>
    exact ih (goodMap_mapSet h rfl)

theorem mlookup_mapSetAll (m : DetectionMap) (l : List Detection) (key : String) :
    mlookup (mapSetAll m l) key =
      (l.reverse.find? (fun r => r.id == key)).or (mlookup m key) := by
  induction l generalizing m with
  | nil => simp [mapSetAll]
  | cons d rest ih =>
    have step : mapSetAll m (d :: rest) = mapSetAll (mapSet m d.id d) rest := rfl
    rw [step, ih, List.reverse_cons, List.find?_append, Option.or_assoc]
    by_cases hd : d.id = key
    · subst hd
      simp [List.find?, mlookup_mapSet_self]
    · have hbeq : (d.id == key) = false := by
        simpa using hd
      simp [List.find?, hbeq, mlookup_mapSet_ne m d.id key d (fun he => hd he.symm)]

theorem find?_eq_some_of_goodMap {m : DetectionMap} {key : String} {d : Detection}
    (h : GoodMap m) (hmem : (key, d) ∈ m) :
    m.find? (fun p => p.1 == key) = some (key, d) := by
  induction m with
  | nil => cases hmem
  | cons q rest ih =>
    rcases List.mem_cons.mp hmem with heq | htail
    · have : (q.1 == key) = true := by
        simp [← heq]
      simp [List.find?, this, heq.symm]
    · by_cases hq : q.1 = key
      · exfalso
        have hkey : key ∈ rest.map Prod.fst := List.mem_map.mpr ⟨(key, d), htail, rfl⟩
        have : q.1 ∉ rest.map Prod.fst := (List.nodup_cons.mp h.1).1
        exact this (hq ▸ hkey)
      · have hbeq : (q.1 == key) = false := by
          simpa using hq
        simp only [List.find?, hbeq]
        exact ih (goodMap_tail h) htail

theorem mem_values_iff_mlookup {m : DetectionMap} (h : GoodMap m) (d : Detection) :
    d ∈ m.map Prod.snd ↔ mlookup m d.id = some d := by
  constructor
  · intro hd
    rcases List.mem_map.mp hd with ⟨p, hp, hpd⟩
    have hkey : p = (d.id, d) := by
      have := h.2 p hp
      rw [← hpd] at *
      exact Prod.ext (by rw [← this]) rfl
    rw [hkey] at hp
    rw [mlookup, find?_eq_some_of_goodMap h hp]
    rfl
  · intro hd
    rcases Option.map_eq_some'.mp hd with ⟨p, hp, hpd⟩
    exact hpd ▸ List.mem_map.mpr ⟨p, List.mem_of_find?_eq_some hp, rfl⟩

theorem mergeDefects_ids_nodup (prev fetched : List Detection) :
    ((mergeDefects prev fetched).map Detection.id).Nodup := by
  have hM : GoodMap (mapSetAll (mapSetAll [] prev) fetched) :=
    goodMap_mapSetAll fetched (goodMap_mapSetAll prev goodMap_nil)
  set M := mapSetAll (mapSetAll [] prev) fetched with hMdef
  have hvals : (M.map Prod.snd).map Detection.id = M.map Prod.fst := by
    rw [List.map_map]
    exact List.map_eq_map_iff.mpr (fun p hp => hM.2 p hp)
  have hsub :
      List.Sublist ((mergeDefects prev fetched).map Detection.id)
        ((M.map Prod.snd).map Detection.id) :=
    List.Sublist.map Detection.id (List.filter_sublist (M.map Prod.snd))
  exact List.Nodup.sublist hsub (hvals ▸ hM.1)

theorem mergeDefects_mem_find {prev fetched : List Detection} {d : Detection}
    (hd : d ∈ mergeDefects prev fetched) :
    fetched.reverse.find? (fun r => r.id == d.id) = some d := by
  have hM : GoodMap (mapSetAll (mapSetAll [] prev) fetched) :=
    goodMap_mapSetAll fetched (goodMap_mapSetAll prev goodMap_nil)
  rcases List.mem_filter.mp hd with ⟨hval, hcur⟩
  have hlook := (mem_values_iff_mlookup hM d).mp hval
  rw [mlookup_mapSetAll] at hlook
  have hin : d.id ∈ fetched.map Detection.id := List.elem_iff.mp hcur
  rcases List.mem_map.mp hin with ⟨r, hr, hrid⟩
  have hsome : (fetched.reverse.find? (fun x => x.id == d.id)).isSome :=
    List.find?_isSome.mpr ⟨r, List.mem_reverse.mpr hr, by simpa using hrid⟩
  rcases Option.isSome_iff_exists.mp hsome with ⟨x, hx⟩
  rw [hx] at hlook ⊢
  simpa using hlook

theorem mergeDefects_covers {prev fetched : List Detection} {r : Detection}
    (hr : r ∈ fetched) :
    ∃ d ∈ mergeDefects prev fetched, d.id = r.id := by
  have hM : GoodMap (mapSetAll (mapSetAll [] prev) fetched) :=
    goodMap_mapSetAll fetched (goodMap_mapSetAll prev goodMap_nil)
  have hsome : (fetched.reverse.find? (fun x => x.id == r.id)).isSome :=
    List.find?_isSome.mpr ⟨r, List.mem_reverse.mpr hr, by simp⟩
  rcases Option.isSome_iff_exists.mp hsome with ⟨d, hd⟩
  have hdid : d.id = r.id := by
    simpa using List.find?_some hd
  have hlook : mlookup (mapSetAll (mapSetAll [] prev) fetched) r.id = some d := by
    rw [mlookup_mapSetAll, hd]
    rfl
  have hval : d ∈ (mapSetAll (mapSetAll [] prev) fetched).map Prod.snd :=
    (mem_values_iff_mlookup hM d).mpr (hdid ▸ hlook)
  refine ⟨d, List.mem_filter.mpr ⟨hval, ?_⟩, hdid⟩
  exact List.elem_iff.mpr (hdid ▸ List.mem_map.mpr ⟨r, hr, rfl⟩)

theorem find?_reverse_of_nodup {l : List Detection}
    (h : (l.map Detection.id).Nodup) {d : Detection} (hd : d ∈ l) :
    l.reverse.find? (fun r => r.id == d.id) = some d := by
  induction l with
  | nil => cases hd
  | cons a rest ih =>
    rw [List.reverse_cons, List.find?_append]
    rcases List.mem_cons.mp hd with heq | htail
    · subst heq
      have hnone : rest.reverse.find? (fun r => r.id == d.id) = none := by
        refine List.find?_eq_none.mpr (fun x hx hpx => ?_)
        have hxid : x.id = d.id := by
          simpa using hpx
        have : d.id ∈ rest.map Detection.id :=
          List.mem_map.mpr ⟨x, List.mem_reverse.mp hx, hxid⟩
        exact (List.nodup_cons.mp (by simpa using h)).1 this
      simp [hnone, List.find?]
    · have hrest := ih (List.nodup_cons.mp (by simpa using h)).2 htail
      simp [hrest]

theorem mergeDefects_mem_of_mem_fetched {prev fetched : List Detection} {d : Detection}
    (hnodup : (fetched.map Detection.id).Nodup) (hd : d ∈ fetched) :
    d ∈ mergeDefects prev fetched := by
  have hM : GoodMap (mapSetAll (mapSetAll [] prev) fetched) :=
    goodMap_mapSetAll fetched (goodMap_mapSetAll prev goodMap_nil)
  have hfind := find?_reverse_of_nodup hnodup hd
  have hlook : mlookup (mapSetAll (mapSetAll [] prev) fetched) d.id = some d := by
    rw [mlookup_mapSetAll, hfind]
    rfl
  have hval : d ∈ (mapSetAll (mapSetAll [] prev) fetched).map Prod.snd :=
    (mem_values_iff_mlookup hM d).mpr hlook
  exact List.mem_filter.mpr
    ⟨hval, List.elem_iff.mpr (List.mem_map.mpr ⟨d, hd, rfl⟩)⟩

theorem mergeDefects_mem_id {prev fetched : List Detection} {d : Detection}
    (hd : d ∈ mergeDefects prev fetched) : d.id ∈ fetched.map Detection.id :=
  List.elem_iff.mp (List.mem_filter.mp hd).2

theorem processBatches_eq_filterMap (f : String → Option Detection) (l : List String) :
    processBatches f l = l.filterMap f := by
  have key : ∀ n (l : List String), l.length ≤ n → processBatches f l = l.filterMap f := by
    intro n
    induction n with
    | zero =>
      intro l hl
      have hnil : l = [] := List.length_eq_zero.mp (Nat.le_zero.mp hl)
      subst hnil
      simp [processBatches]
    | succ n ih =>
      intro l hl
      match l with
      | [] => simp [processBatches]
      | a :: rest =>
        have hdrop : ((a :: rest).drop 20).length ≤ n := by
          simp only [List.length_drop, List.length_cons]
          simp only [List.length_cons] at hl
          omega
        rw [processBatches, ih ((a :: rest).drop 20) hdrop, ← List.filterMap_append,
          List.take_append_drop]
  exact key l.length l (Nat.le_refl _)

theorem mem_getAllDetections_iff (settings : Settings) (b : Backend) (limit : Nat)
    (d : Detection) :
    d ∈ getAllDetections settings b limit ↔
      isReady settings b = true ∧
        ∃ name ∈ (listMetadataFiles settings b).take limit,
          processDetection settings b name = some d := by
  by_cases h : isReady settings b
  · simp [getAllDetections, h, processBatches_eq_filterMap, List.mem_filterMap]
  · simp [getAllDetections, h]

theorem gpsValid_iff (j : Json) :
    gpsValid j = true ↔
      ∃ l, jsonLookup j "GPSLocation" = some (Json.arr l) ∧ l.length = 2 := by
  unfold gpsValid
  cases h : jsonLookup j "GPSLocation" with
  | none => simp
  | some gps =>
    cases gps <;> simp [truthy, jsonIsArray, jsonArrayLength]

theorem getMetadata_some {settings : Settings} {b : Backend} {name : String} {m : Json}
    (h : getMetadata settings b name = some m) :
    b.content name = some m ∧ gpsValid m = true := by
  unfold getMetadata at h
  by_cases hr : isReady settings b
  · rw [if_pos hr] at h
    split at h
    · cases h
    · rename_i metadata hc
      split at h
      · cases h
        exact ⟨hc, by assumption⟩
      · cases h
  · rw [if_neg hr] at h
    cases h

theorem processDetection_some {settings : Settings} {b : Backend} {name : String}
    {d : Detection} (h : processDetection settings b name = some d) :
    d.name = name ∧ getMetadata settings b name = some d.metadata ∧
      ∃ l, jsonLookup d.metadata "GPSLocation" = some (Json.arr l) ∧
        l.length = 2 ∧ d.location = Json.arr l := by
  cases hm : getMetadata settings b name with
  | none =>
    rw [processDetection.eq_def, hm] at h
    exact Option.noConfusion h
  | some metadata =>
    rcases (gpsValid_iff metadata).mp (getMetadata_some hm).2 with ⟨l, hl, hlen⟩
    rw [processDetection.eq_def, hm] at h
    simp only [hl, Option.getD_some, truthy, if_true] at h
    injection h with h2
    subst h2
    exact ⟨rfl, rfl, l, hl, hlen, rfl⟩

/-! ### Claim theorems. -/

/-- C1: the merged client-side collection contains at most one Detection per id;
for every merged detection, its value is the last fetched record carrying that
id (last-write-wins by fetch arrival order, with no timestamp comparison), and
every fetched id is present in the merge result. -/
theorem claim1_merge_unique_last_write_wins (prev fetched : List Detection) :
    ((mergeDefects prev fetched).map Detection.id).Nodup
    ∧ (∀ d ∈ mergeDefects prev fetched,
        fetched.reverse.find? (fun r => r.id == d.id) = some d)
    ∧ (∀ r ∈ fetched, ∃ d ∈ mergeDefects prev fetched, d.id = r.id) :=
  ⟨mergeDefects_ids_nodup prev fetched,
   fun _ hd => mergeDefects_mem_find hd,
   fun _ hr => mergeDefects_covers hr⟩

/-- Witness for C1 at a concrete held set and response sharing the id `a`:
the fetched record is in the merge result and is the last arrival with its
id. -/
theorem claim1_witness :
    dFetchA ∈ mergeDefects [dHeld] [dFetchA]
    ∧ [dFetchA].reverse.find? (fun r => r.id == dFetchA.id) = some dFetchA := by
  have hmem : dFetchA ∈ mergeDefects [dHeld] [dFetchA] := by
    rw [show mergeDefects [dHeld] [dFetchA] = [dFetchA] from rfl]
    exact List.mem_singleton.mpr rfl
  exact ⟨hmem, (claim1_merge_unique_last_write_wins [dHeld] [dFetchA]).2.1 dFetchA hmem⟩

/-- C2: under the prune-on-reconcile merge, an id absent from the latest fetch
response is absent from the merged set. -/
theorem claim2_prune_absent_ids (prev fetched : List Detection) (i : String)
    (h : i ∉ fetched.map Detection.id) :
    i ∉ (mergeDefects prev fetched).map Detection.id := by
  intro hmem
  rcases List.mem_map.mp hmem with ⟨d, hd, hdi⟩
  exact h (hdi ▸ mergeDefects_mem_id hd)

/-- Witness for C2: id `a` is held but absent from the latest response, so it
is pruned from the merge result. -/
theorem claim2_witness :
    "a" ∉ [dFetchB].map Detection.id
    ∧ "a" ∉ (mergeDefects [dHeld] [dFetchB]).map Detection.id :=
  ⟨by decide, claim2_prune_absent_ids [dHeld] [dFetchB] "a" (by decide)⟩

/-- C8: a failed fetch (network error or non-OK response) leaves the held
detections and `lastUpdated` unchanged; `fetchDefectsStep` is a total function,
mirroring the catch block that prevents any exception from reaching the
engine's consumers. -/
theorem claim8_failure_preserves_state (st : EngineState) (now : Int) :
    (fetchDefectsStep st now FetchOutcome.networkError).defects = st.defects
    ∧ (fetchDefectsStep st now FetchOutcome.networkError).lastUpdated = st.lastUpdated
    ∧ (fetchDefectsStep st now FetchOutcome.httpError).defects = st.defects
    ∧ (fetchDefectsStep st now FetchOutcome.httpError).lastUpdated = st.lastUpdated :=
  ⟨rfl, rfl, rfl, rfl⟩

/-- C10 counterexample: for a response carrying two records with the same id,
the merge result is not extensionally equal to the response — the earlier
duplicate is dropped — so the unrestricted claim fails. -/
theorem claim10_counterexample :
    dFetchA ∈ ([dFetchA, dDupA] : List Detection)
    ∧ dFetchA ∉ mergeDefects [] [dFetchA, dDupA] := by
  refine ⟨List.mem_cons_self _ _, ?_⟩
  intro hmem
  rw [show mergeDefects [] [dFetchA, dDupA] = [dDupA] from rfl] at hmem
  exact absurd (congrArg Detection.name (List.mem_singleton.mp hmem)) (by decide)

/-- C10 (amended): for every prior held set and every fetched response with
pairwise-distinct ids — which every well-formed fetch response has — the merge
result contains exactly the members of the response: the incremental merge is
extensionally wholesale replacement. -/
theorem claim10_merge_is_replacement (prev fetched : List Detection)
    (h : (fetched.map Detection.id).Nodup) (d : Detection) :
    d ∈ mergeDefects prev fetched ↔ d ∈ fetched := by
  constructor
  · intro hd
    exact List.mem_reverse.mp (List.mem_of_find?_eq_some (mergeDefects_mem_find hd))
  · exact mergeDefects_mem_of_mem_fetched h

/-- Witness for C10 at a concrete prior set and duplicate-free response. -/
theorem claim10_witness :
    (([dFetchA, dFetchB].map Detection.id).Nodup)
    ∧ (dFetchB ∈ mergeDefects [dHeld] [dFetchA, dFetchB] ↔ dFetchB ∈ [dFetchA, dFetchB]) :=
  ⟨by decide, claim10_merge_is_replacement [dHeld] [dFetchA, dFetchB] (by decide) dFetchB⟩

/-- C3: a metadata record whose `GPSLocation` fails validation is excluded
from the Fetch Service output; every returned Detection carries a 2-element
location copied from the metadata's GPS field; and the code's validation
predicate accepts exactly the 2-element-array case. -/
theorem claim3_gps_validation (settings : Settings) (b : Backend) (limit : Nat) :
    (∀ name j, b.content name = some j → gpsValid j = false →
      ∀ d ∈ getAllDetections settings b limit, d.name ≠ name)
    ∧ (∀ d ∈ getAllDetections settings b limit,
        ∃ l, jsonLookup d.metadata "GPSLocation" = some (Json.arr l) ∧
          l.length = 2 ∧ d.location = Json.arr l)
    ∧ (∀ j, gpsValid j = true ↔
        ∃ l, jsonLookup j "GPSLocation" = some (Json.arr l) ∧ l.length = 2) := by
  refine ⟨?_, ?_, gpsValid_iff⟩
  · intro name j hc hg d hd hdname
    rcases (mem_getAllDetections_iff settings b limit d).mp hd with ⟨_, n, _, hp⟩
    rcases processDetection_some hp with ⟨hname, hmeta, _⟩
    have hn_eq : n = name := by
      rw [← hname]
      exact hdname
    rw [hn_eq] at hmeta
    rcases getMetadata_some hmeta with ⟨hc', hg'⟩
    rw [hc] at hc'
    cases hc'
    rw [hg'] at hg
    cases hg
  · intro d hd
    rcases (mem_getAllDetections_iff settings b limit d).mp hd with ⟨_, n, _, hp⟩
    exact (processDetection_some hp).2.2

/-- Witness for C3: the sample backend's malformed metadata object (a non-array
`GPSLocation`) never appears among the returned detections. -/
theorem claim3_witness :
    sampleBackend.content "f/two_metadata.json" = some badJson
    ∧ gpsValid badJson = false
    ∧ ∀ d ∈ getAllDetections sampleSettings sampleBackend 10,
        d.name ≠ "f/two_metadata.json" :=
  ⟨rfl, by decide,
   (claim3_gps_validation sampleSettings sampleBackend 10).1
     "f/two_metadata.json" badJson rfl (by decide)⟩

/-- C4: severity classification in the map popup is a total function of the
severity value landing in one of the three buckets, and under the
round-then-bucket scheme it maps 0.29 to Low, 0.30 and 0.49 to Moderate, and
0.50 to Severe. -/
theorem claim4_severity_scheme_b :
    MapComponent.formatSeverityLevel 0.29 = "Low"
    ∧ MapComponent.formatSeverityLevel 0.30 = "Moderate"
    ∧ MapComponent.formatSeverityLevel 0.49 = "Moderate"
    ∧ MapComponent.formatSeverityLevel 0.50 = "Severe"
    ∧ ∀ severity : ℚ,
        MapComponent.formatSeverityLevel severity = "Severe"
        ∨ MapComponent.formatSeverityLevel severity = "Moderate"
        ∨ MapComponent.formatSeverityLevel severity = "Low" := by
  refine ⟨?_, ?_, ?_, ?_, ?_⟩
  · unfold MapComponent.formatSeverityLevel
    norm_num [jsRound]
  · unfold MapComponent.formatSeverityLevel
    norm_num [jsRound]
  · unfold MapComponent.formatSeverityLevel
    norm_num [jsRound]
  · unfold MapComponent.formatSeverityLevel
    norm_num [jsRound]
  · intro severity
    unfold MapComponent.formatSeverityLevel
    by_cases h1 : ((jsRound (severity * 100) : ℚ) / 100) ≥ 0.5
    · simp [h1]
    · by_cases h2 : ((jsRound (severity * 100) : ℚ) / 100) ≥ 0.3
      · simp [h1, h2]
      · simp [h1, h2]

/-- C5 counterexample: at severity 0.6 the recent-defects list classifies
Moderate (threshold 0.7) while the map popup classifies Severe and the map
paint rule colors the severe red — the components do not agree on all
inputs. -/
theorem claim5_counterexample :
    RecentDefects.formatSeverityLevel 0.6 = "Moderate"
    ∧ MapComponent.formatSeverityLevel 0.6 = "Severe"
    ∧ RecentDefects.getSeverityColorClass 0.6 = "text-yellow-500"
    ∧ MapComponent.unclusteredPointColor 0.6 = "#ef4444"
    ∧ RecentDefects.formatSeverityLevel 0.6 ≠ MapComponent.formatSeverityLevel 0.6 := by
  have hrecent : RecentDefects.formatSeverityLevel 0.6 = "Moderate" := by
    unfold RecentDefects.formatSeverityLevel
    norm_num
  have hmap : MapComponent.formatSeverityLevel 0.6 = "Severe" := by
    unfold MapComponent.formatSeverityLevel
    norm_num [jsRound]
  have hrecentColor : RecentDefects.getSeverityColorClass 0.6 = "text-yellow-500" := by
    unfold RecentDefects.getSeverityColorClass
    norm_num
  have hpaint : MapComponent.unclusteredPointColor 0.6 = "#ef4444" := by
    unfold MapComponent.unclusteredPointColor
    norm_num
  refine ⟨hrecent, hmap, hrecentColor, hpaint, ?_⟩
  rw [hrecent, hmap]
  decide

/-- C5 (amended): no single scheme is applied uniformly across components — the
list component and the map disagree at severity 0.6 — but within the map popup
the label function and the color-class function do realize the same bucketing
on every input. -/
theorem claim5_popup_label_color_agree (severity : ℚ) :
    MapComponent.getSeverityColorClass severity =
      severityLabelToColorClass (MapComponent.formatSeverityLevel severity) := by
  unfold MapComponent.getSeverityColorClass MapComponent.formatSeverityLevel
    severityLabelToColorClass
  by_cases h1 : ((jsRound (severity * 100) : ℚ) / 100) ≥ 0.5
  · simp [h1]
  · by_cases h2 : ((jsRound (severity * 100) : ℚ) / 100) ≥ 0.3
    · simp [h1, h2]
    · simp [h1, h2]

/-- C6: the defects route clamps every caller-supplied limit to the hard
ceiling 10000 (effective limit is the minimum of the request and the ceiling),
so the backing metadata reads are bounded by the ceiling — in particular for a
request of 999999. -/
theorem claim6_limit_clamped (settings : Settings) (b : Backend) (requestedLimit : Nat) :
    routeEffectiveLimit requestedLimit = min requestedLimit 10000
    ∧ routeBackingReads settings b requestedLimit ≤ min requestedLimit 10000
    ∧ routeBackingReads settings b 999999 ≤ 10000 := by
  refine ⟨rfl, List.length_take_le _ _, ?_⟩
  have h := List.length_take_le (routeEffectiveLimit 999999) (listMetadataFiles settings b)
  calc routeBackingReads settings b 999999 ≤ routeEffectiveLimit 999999 := h
    _ ≤ 10000 := by norm_num [routeEffectiveLimit]

/-- C7: with `since` supplied, the route's result is exactly the limit-bounded
fetch result filtered to detections whose parsed `ProcessingTimestamp` is
strictly greater than the parsed `since` (filtering after the bounded read);
with `since` absent, no timestamp filtering occurs. -/
theorem claim7_since_filter (settings : Settings) (b : Backend) (dateMillis : Json → Int)
    (limitParam : Option Nat) (sinceStr : String) :
    routeGET settings b dateMillis limitParam (some sinceStr) =
      (getAllDetections settings b (min (limitParam.getD 5000) 10000)).filter
        (fun d => dateMillis (detectionTimestamp d) > dateMillis (Json.str sinceStr))
    ∧ routeGET settings b dateMillis limitParam none =
        getAllDetections settings b (min (limitParam.getD 5000) 10000)
    ∧ ∀ d, d ∈ routeGET settings b dateMillis limitParam (some sinceStr) ↔
        d ∈ getAllDetections settings b (min (limitParam.getD 5000) 10000)
          ∧ dateMillis (detectionTimestamp d) > dateMillis (Json.str sinceStr) := by
  refine ⟨rfl, rfl, ?_⟩
  intro d
  rw [show routeGET settings b dateMillis limitParam (some sinceStr) =
    (getAllDetections settings b (min (limitParam.getD 5000) 10000)).filter
      (fun d => dateMillis (detectionTimestamp d) > dateMillis (Json.str sinceStr)) from rfl]
  simp [List.mem_filter]

/-- C9: with a missing project id or bucket name the client is never created,
so every Fetch Service operation degrades to its empty result: empty file
list, empty signed URL, null metadata, empty detection list. -/
theorem claim9_missing_config (settings : Settings) (b : Backend) (blobName : String)
    (limit : Nat) (h : settings.projectId = "" ∨ settings.bucketName = "") :
    listMetadataFiles settings b = []
    ∧ getSignedUrl settings b blobName = ""
    ∧ getMetadata settings b blobName = none
    ∧ getAllDetections settings b limit = [] := by
  have hci : clientInitialized settings = false := by
    rcases h with h | h <;> simp [clientInitialized, h]
  have hr : isReady settings b = false := by
    simp [isReady, hci]
  exact ⟨by simp [listMetadataFiles, hr], by simp [getSignedUrl, hr],
    by simp [getMetadata, hr], by simp [getAllDetections, hr]⟩

/-- Witness for C9 at concrete settings missing the project id. -/
theorem claim9_witness :
    (emptySettings.projectId = "" ∨ emptySettings.bucketName = "")
    ∧ (listMetadataFiles emptySettings sampleBackend = []
      ∧ getSignedUrl emptySettings sampleBackend "f/x.json" = ""
      ∧ getMetadata emptySettings sampleBackend "f/x.json" = none
      ∧ getAllDetections emptySettings sampleBackend 5 = []) :=
  ⟨Or.inl rfl, claim9_missing_config emptySettings sampleBackend "f/x.json" 5 (Or.inl rfl)⟩

end RoadDefects
